import Mathlib

/-!
Verification development for the LAN communication system
(src/server.py, src/server_modules/*, src/client_modules/*).

Conventions of the shallow embedding:
* Byte strings are modelled as `List Nat` (one entry per byte, values 0..255).
* Python `dict`s (which preserve insertion order and have unique keys) are
  modelled as association lists `List (κ × α)` with the operations `alGet`
  (lookup), `alSet` (insert-or-replace, preserving position), `alRemove`
  (`del`) and `alSetD` (`setdefault`).
* Wall-clock timestamps (`time.time()` floats, in seconds) are modelled as
  integers counting milliseconds.
* Network sends that may fail are modelled by a function from the recipient
  to `Bool` (`true` = `sendall`/`sendto` succeeds, `false` = it raises).
-/

/-- Association-list lookup, mirroring Python `d.get(k)` / `d[k]`. -/
def alGet {κ α : Type} [DecidableEq κ] : List (κ × α) → κ → Option α
  | [], _ => none
  | (k1, v) :: rest, k => if k1 = k then some v else alGet rest k

/-- Association-list insert-or-replace, mirroring Python `d[k] = v`:
an existing key keeps its position, a new key is appended (insertion order). -/
def alSet {κ α : Type} [DecidableEq κ] : List (κ × α) → κ → α → List (κ × α)
  | [], k, v => [(k, v)]
  | (k1, v1) :: rest, k, v =>
      if k1 = k then (k, v) :: rest else (k1, v1) :: alSet rest k v

/-- Association-list removal, mirroring Python `del d[k]` / `d.pop(k, None)`. -/
def alRemove {κ α : Type} [DecidableEq κ] (l : List (κ × α)) (k : κ) : List (κ × α) :=
  l.filter (fun kv => decide (kv.1 ≠ k))

/-- Association-list `d.setdefault(k, v)`. -/
def alSetD {κ α : Type} [DecidableEq κ] (l : List (κ × α)) (k : κ) (v : α) : List (κ × α) :=
  match alGet l k with
  | some _ => l
  | none => l ++ [(k, v)]

/-- Boolean membership in a key list, mirroring Python `k in keys`. -/
def keyMem {κ : Type} [DecidableEq κ] (k : κ) : List κ → Bool
  | [] => false
  | x :: xs => if x = k then true else keyMem k xs

namespace ScreenRelay

/-!
Model of `ScreenServer` (src/server_modules/screen_module.py).  The state keeps
the username-keyed client registry (`self.clients`, only membership matters for
the properties below, so it is a list of usernames) and the exclusive presenter
slot (`self.current_presenter`).  Each operation is parametrised by
`f : String → Bool`, the per-recipient outcome of `sendall`.
-/

/-- Messages pushed by the screen-share relay (the `pickle`d dicts built in
`_handle_start_presenting`, `_handle_stop_presenting` and `_handle_client`). -/
inductive SMsg : Type
  | presenterStarted (u : String)
  | presenterStopped (u : String)
  | presentingAllowed (allowed : Bool) (current : Option String)
  | screenFrame (sender : String) (payload : List Nat)
deriving DecidableEq

/-- State of `ScreenServer`: the client registry and `current_presenter`. -/
structure SState : Type where
  clients : List String
  presenter : Option String
deriving DecidableEq

/-- `ScreenServer._remove_client`: deletes the username from the registry
(and its handler-thread entry); the presenter slot is NOT touched. -/
def removeClient (u : String) (s : SState) : SState :=
  { s with clients := s.clients.filter (fun v => decide (v ≠ u)) }

/-- `ScreenServer._send_to_client`: if the username is registered, attempt one
send; on failure the client is removed via `_remove_client`. -/
def sendToClient (f : String → Bool) (u : String) (m : SMsg) (s : SState) :
    SState × List (String × SMsg) :=
  if u ∈ s.clients then
    if f u then (s, [(u, m)]) else (removeClient u s, [])
  else (s, [])

/-- Removing a list of clients one after the other (the cleanup loop at the
end of each broadcast). -/
def removeAll (us : List String) (s : SState) : SState :=
  us.foldl (fun st u => removeClient u st) s

/-- `ScreenServer._broadcast_to_all`: send to every registered client,
collect the failed ones, then remove each of them. -/
def broadcastAll (f : String → Bool) (m : SMsg) (s : SState) :
    SState × List (String × SMsg) :=
  (removeAll (s.clients.filter (fun u => !(f u))) s,
   s.clients.filterMap (fun u => if f u then some (u, m) else none))

/-- `ScreenServer._broadcast_to_all_except`: like `_broadcast_to_all` but the
sender is skipped entirely. -/
def broadcastAllExcept (sender : String) (f : String → Bool) (m : SMsg) (s : SState) :
    SState × List (String × SMsg) :=
  (removeAll ((s.clients.filter (fun u => decide (u ≠ sender))).filter (fun u => !(f u))) s,
   (s.clients.filter (fun u => decide (u ≠ sender))).filterMap
     (fun u => if f u then some (u, m) else none))

/-- The part of `_accept_clients` that runs for one new connection: register
the username, then (if somebody is presenting) push a `presenter_started`
notice to the new client. -/
def connect (u : String) (f : String → Bool) (s : SState) :
    SState × List (String × SMsg) :=
  let s1 : SState :=
    { s with clients := if u ∈ s.clients then s.clients else s.clients ++ [u] }
  match s1.presenter with
  | some p => sendToClient f u (.presenterStarted p) s1
  | none => (s1, [])

/-- `ScreenServer._handle_start_presenting`. -/
def startPresenting (u : String) (f : String → Bool) (s : SState) :
    SState × List (String × SMsg) :=
  match s.presenter with
  | none =>
      let s1 : SState := { s with presenter := some u }
      let r2 := broadcastAll f (.presenterStarted u) s1
      let r3 := sendToClient f u (.presentingAllowed true none) r2.1
      (r3.1, r2.2 ++ r3.2)
  | some p => sendToClient f u (.presentingAllowed false (some p)) s

/-- `ScreenServer._handle_stop_presenting`. -/
def stopPresenting (u : String) (f : String → Bool) (s : SState) :
    SState × List (String × SMsg) :=
  if s.presenter = some u then
    broadcastAll f (.presenterStopped u) { s with presenter := none }
  else (s, [])

/-- The `screen_frame` branch of `_handle_client`: relayed only when the
sender is the current presenter. -/
def screenFrame (u : String) (payload : List Nat) (f : String → Bool) (s : SState) :
    SState × List (String × SMsg) :=
  if s.presenter = some u then
    broadcastAllExcept u f (.screenFrame u payload) s
  else (s, [])

/-- The tail of `_handle_client` after the receive loop ends (disconnect):
`_handle_stop_presenting` followed by `_remove_client`. -/
def disconnect (u : String) (f : String → Bool) (s : SState) :
    SState × List (String × SMsg) :=
  let r1 := stopPresenting u f s
  (removeClient u r1.1, r1.2)

/-- The operations of the screen relay exercised by one client `u`. -/
inductive SOp : Type
  | connect (u : String)
  | start (u : String)
  | stop (u : String)
  | frame (u : String) (payload : List Nat)
  | disconnect (u : String)

/-- The client driving an operation. -/
def SOp.subject : SOp → String
  | .connect u => u
  | .start u => u
  | .stop u => u
  | .frame u _ => u
  | .disconnect u => u

/-- One step of the relay. -/
def stepOp (op : SOp) (f : String → Bool) (s : SState) : SState × List (String × SMsg) :=
  match op with
  | .connect u => connect u f s
  | .start u => startPresenting u f s
  | .stop u => stopPresenting u f s
  | .frame u payload => screenFrame u payload f s
  | .disconnect u => disconnect u f s

/-- The spec invariant: the presenter slot is empty or names a registered
screen client. -/
def Inv (s : SState) : Prop :=
  match s.presenter with
  | none => True
  | some p => p ∈ s.clients

/-- Precondition under which the invariant is actually preserved: the
requester of `start_presenting` must still be registered. -/
def SOp.pre : SOp → SState → Prop
  | .start u, s => u ∈ s.clients
  | _, _ => True

instance (s : SState) : Decidable (Inv s) :=
  match s with
  | ⟨_, none⟩ => isTrue trivial
  | ⟨cs, some p⟩ => if h : p ∈ cs then isTrue h else isFalse h

/-- Send-outcome function that always fails (every `sendall` raises). -/
def allFail : String → Bool := fun _ => false

/-- Send-outcome function that always succeeds. -/
def allOk : String → Bool := fun _ => true

end ScreenRelay

namespace FileCatalog

/-!
Model of `FileServer` (src/server_modules/file_module.py).  The catalog
`self.available_files` is an association list from filename to its entry.
Each `recv` on the client socket during an upload is modelled by one element
of a chunk stream; the stream ending (or an empty chunk) models the client
disconnecting, after which `recv` returns `b''`.
-/

/-- `FILE_TRANSFER_CONFIG['MAX_FILE_SIZE']` (src/constants.py). -/
def MAX_FILE_SIZE : Nat := 500 * 1024 * 1024

/-- `FILE_TRANSFER_CONFIG['CHUNK_SIZE']` (src/constants.py). -/
def CHUNK_SIZE : Nat := 8192

/-- A catalog entry: `{'size': size, 'uploader': username}`. -/
structure Entry : Type where
  size : Nat
  uploader : String
deriving DecidableEq

/-- Fields of an `UPLOAD` request. -/
structure UploadReq : Type where
  filename : String
  filesize : Nat
  username : String
deriving DecidableEq

/-- Responses and pushes sent on the file-transfer channel. -/
inductive FResp : Type
  | ready
  | errorResp
  | successResp
  | listResp (files : List (String × Entry))
  | fileListUpdate (files : List (String × Entry))
deriving DecidableEq

/-- The `while received < filesize` receive loop of `_handle_upload`:
returns the number of bytes received, the bytes written to disk, and the
unread remainder of the stream.  An empty chunk is `recv` returning `b''`
(disconnect), which breaks the loop. -/
def recvLoop (filesize : Nat) : Nat → List Nat → List (List Nat) → Nat × List Nat × List (List Nat)
  | received, written, [] => (received, written, [])
  | received, written, c :: rest =>
      if received < filesize then
        if c.isEmpty then (received, written, rest)
        else recvLoop filesize (received + c.length) (written ++ c) rest
      else (received, written, c :: rest)

/-- `FileServer._handle_upload`: returns the new catalog, the responses sent
back on this connection, the optional `file_list_update` broadcast payload,
the bytes written to the storage file, and the unread remainder of the
incoming stream. -/
def handleUpload (catalog : List (String × Entry)) (r : UploadReq)
    (stream : List (List Nat)) :
    List (String × Entry) × List FResp × Option (List (String × Entry)) × List Nat × List (List Nat) :=
  if r.filesize > MAX_FILE_SIZE then
    (catalog, [.errorResp], none, [], stream)
  else
    let rec_ := recvLoop r.filesize 0 [] stream
    let catalog1 := alSet catalog r.filename ⟨r.filesize, r.username⟩
    (catalog1, [.ready, .successResp], some catalog1, rec_.2.1, rec_.2.2)

/-- A request as read by the `_handle_client` command loop; an upload carries
the chunk stream that follows the `ready` response. -/
inductive FReq : Type
  | upload (r : UploadReq) (stream : List (List Nat))
  | listCmd

/-- The `_handle_client` command loop over the requests arriving on one
connection, threading the catalog through (`LIST` replies with the current
catalog via `_send_file_list`). -/
def handleClient : List (String × Entry) → List FReq → List (String × Entry) × List FResp
  | catalog, [] => (catalog, [])
  | catalog, .upload r stream :: rest =>
      let u := handleUpload catalog r stream
      let k := handleClient u.1 rest
      (k.1, u.2.1 ++ k.2)
  | catalog, .listCmd :: rest =>
      let k := handleClient catalog rest
      (k.1, .listResp catalog :: k.2)

end FileCatalog

namespace Orchestrator

/-!
Model of `MainServer.start_modules` / `MainServer._stop_modules_list`
(src/server.py), for an orchestrator that is not already running.  A module's
`start()` either succeeds, returns `False` (which `start_modules` turns into
a `RuntimeError`), or raises.
-/

/-- Outcome of one module's `start()`. -/
inductive StartResult : Type
  | ok
  | retFalse
  | raises
deriving DecidableEq

/-- A module, as listed in `self.modules`: a display name and the behaviour
of its `start()`. -/
structure Mod : Type where
  name : String
  res : StartResult
deriving DecidableEq

/-- Observable outcome of `start_modules`: the names whose `stop()` was
called (in call order, i.e. reverse start order), the final `active_modules`,
the final `running` flag, and whether the exception escaped to the caller. -/
structure OrchResult : Type where
  stops : List String
  active : List String
  running : Bool
  raised : Bool
deriving DecidableEq

/-- The startup loop of `start_modules`, carrying the `started` list: on the
first non-`ok` start, `_stop_modules_list(started)` stops the started modules
in reverse order, `active_modules` is cleared, `running` stays `False`, and
the exception is re-raised. -/
def runStart : List Mod → List String → OrchResult
  | [], started => { stops := [], active := started, running := true, raised := false }
  | m :: rest, started =>
      match m.res with
      | .ok => runStart rest (started ++ [m.name])
      | _ => { stops := started.reverse, active := [], running := false, raised := true }

/-- `MainServer.start_modules` from the not-running state. -/
def startModules (mods : List Mod) : OrchResult :=
  runStart mods []

end Orchestrator

namespace Participants

/-!
Model of `ParticipantServer` (src/server_modules/participant_module.py).
Sockets are identified by numbers; `self.clients` maps socket to username and
`self.participants` maps username to its record.  The broadcasts modelled
here are the all-sends-succeed path of `_broadcast_participant_update`
(delivery failures and the pruning they trigger are not needed by the
properties below).
-/

/-- A participant record: `{'status', 'joined_at', 'video_active'}`.
`joined_at` is the connection time. -/
structure PRec : Type where
  status : String
  joinedAt : Nat
  videoActive : Bool
deriving DecidableEq

/-- State of `ParticipantServer`. -/
structure PState : Type where
  clients : List (Nat × String)
  participants : List (String × PRec)
deriving DecidableEq

/-- Roster messages produced by `_broadcast_participant_update` and
`_send_participant_list`: recipient socket paired with the roster payload. -/
def rosterTo (clients : List (Nat × String)) (participants : List (String × PRec)) :
    List (Nat × List (String × PRec)) :=
  clients.map (fun c => (c.1, participants))

/-- The connect path of `_accept_clients`: register the socket, create or
overwrite the participant record with `status='online'`, `joined_at=now`,
`video_active=False`, send the roster to the new socket, then broadcast the
roster to every connected client. -/
def connect (sock : Nat) (u : String) (now : Nat) (s : PState) :
    PState × List (Nat × List (String × PRec)) :=
  let s1 : PState :=
    { clients := alSet s.clients sock u,
      participants := alSet s.participants u ⟨"online", now, false⟩ }
  (s1, (sock, s1.participants) :: rosterTo s1.clients s1.participants)

/-- `ParticipantServer._remove_participant` (run from the `finally` of
`_handle_client` on clean close, timeout or error): delete the socket and the
username's record, and if anything was removed broadcast the updated roster. -/
def removeParticipant (sock : Nat) (u : String) (s : PState) :
    PState × List (Nat × List (String × PRec)) :=
  let removed := (alGet s.clients sock).isSome || (alGet s.participants u).isSome
  let s1 : PState :=
    { clients := alRemove s.clients sock, participants := alRemove s.participants u }
  if removed then (s1, rosterTo s1.clients s1.participants) else (s1, [])

end Participants

namespace VideoChunk

/-!
Model of the client-side video chunking and reassembly
(src/client_modules/video_module.py).  A datagram's five `|`-separated header
fields together with its payload are modelled structurally as a `Packet`
(`_handle_frame_chunk` recovers exactly these fields with
`packet.split(b'|', 5)`, so the payload bytes after the fifth separator are
preserved verbatim).  Times are integer milliseconds;
`FRAME_EXPIRY_SECONDS = 1.0` becomes `1000`.
-/

/-- `MAX_DATAGRAM_SIZE` (the 8 KiB chunk payload cap). -/
def MAX_DATAGRAM_SIZE : Nat := 8192

/-- A parsed `FRAME|<username>|<frame_id>|<chunk_index>|<total_chunks>|payload`
datagram. -/
structure Packet : Type where
  sender : String
  frameId : Nat
  chunkIndex : Nat
  total : Nat
  payload : List Nat
deriving DecidableEq

/-- `total_chunks = max(1, (len(frame_bytes) + MAX_DATAGRAM_SIZE - 1) // MAX_DATAGRAM_SIZE)`
in `VideoClient._send_frame`. -/
def totalChunksFor (n : Nat) : Nat :=
  max 1 ((n + MAX_DATAGRAM_SIZE - 1) / MAX_DATAGRAM_SIZE)

/-- The list of consecutive `c`-byte slices `frame_bytes[start:end]` taken by
`_send_frame`, for a general chunk size `c`. -/
def chunksOf (c : Nat) (l : List Nat) : List (List Nat) :=
  (List.range (max 1 ((l.length + c - 1) / c))).map (fun i => (l.drop (i * c)).take c)

/-- `VideoClient._send_frame`: split the encoded frame into at most-8-KiB
chunks, each carried in a headered datagram. -/
def sendFrame (username : String) (frameId : Nat) (frame : List Nat) : List Packet :=
  (List.range (totalChunksFor frame.length)).map (fun i =>
    ⟨username, frameId, i, totalChunksFor frame.length,
     (frame.drop (i * MAX_DATAGRAM_SIZE)).take MAX_DATAGRAM_SIZE⟩)

/-- `FRAME_EXPIRY_SECONDS` in milliseconds. -/
def FRAME_EXPIRY_MS : Int := 1000

/-- Reassembly state of `VideoClient`: `_incoming_frames` maps
`(sender, frame_id)` to a chunk-index-keyed buffer, `_frame_meta` maps the
same key to `(total_chunks, created)`. -/
structure AsmState : Type where
  incoming : List ((String × Nat) × List (Nat × List Nat))
  meta : List ((String × Nat) × (Nat × Int))
deriving DecidableEq

/-- The buffer for the packet's key after this packet's chunk is stored
(`frame_buffer[chunk_index] = payload` on the `defaultdict` entry). -/
def bufAfter (s : AsmState) (p : Packet) : List (Nat × List Nat) :=
  alSet ((alGet s.incoming (p.sender, p.frameId)).getD []) p.chunkIndex p.payload

/-- `VideoClient._handle_frame_chunk` for an already-parsed packet: store the
chunk, refresh the key's metadata (`total` and `created` come from THIS
packet), and if the buffer now holds `total_chunks` entries with every index
`0..total-1` present, deliver the concatenation and drop the buffer.  The
second component is the argument passed to the video callback (`None` when
nothing is delivered). -/
def handleFrameChunk (username : String) (s : AsmState) (p : Packet) (now : Int) :
    AsmState × Option (String × List Nat) :=
  if p.sender = username then (s, none)
  else
    let key := (p.sender, p.frameId)
    let buf := bufAfter s p
    let meta1 := alSet s.meta key (p.total, now)
    if buf.length = p.total then
      let ordered := (List.range p.total).map (fun i => alGet buf i)
      if ordered.any (fun o => o.isNone) then
        ({ incoming := alSet s.incoming key buf, meta := meta1 }, none)
      else
        ({ incoming := alRemove s.incoming key, meta := alRemove meta1 key },
         some (p.sender, (ordered.map (fun o => o.getD [])).flatten))
    else
      ({ incoming := alSet s.incoming key buf, meta := meta1 }, none)

/-- `VideoClient._cleanup_stale_frames`: drop every key whose metadata is
older than the expiry window (strict `now - created > 1.0`). -/
def cleanupStale (now : Int) (s : AsmState) : AsmState :=
  let stale := (s.meta.filter (fun kv => decide (now - kv.2.2 > FRAME_EXPIRY_MS))).map (fun kv => kv.1)
  { incoming := s.incoming.filter (fun kv => !(keyMem kv.1 stale)),
    meta := s.meta.filter (fun kv => !(keyMem kv.1 stale)) }

/-- One iteration of `_receive_video`: either a datagram arrives and is fed
to `_handle_frame_chunk`, or `recvfrom` times out (which only happens after
1.0 s without any datagram) and `_cleanup_stale_frames` runs. -/
inductive VEvent : Type
  | pkt (p : Packet) (t : Int)
  | timeout (t : Int)

/-- State transition of one `_receive_video` iteration. -/
def stepEvent (username : String) (s : AsmState) : VEvent → AsmState
  | .pkt p t => (handleFrameChunk username s p t).1
  | .timeout t => cleanupStale t s

/-- Running `_receive_video` from a fresh connection over a list of events. -/
def runTrace (username : String) (evs : List VEvent) : AsmState :=
  evs.foldl (stepEvent username) ⟨[], []⟩

end VideoChunk

namespace AudioMix

/-!
Model of `AudioServer._build_mix_for_target`
(src/server_modules/audio_module.py).  PCM bytes are `List Nat`;
`np.frombuffer(chunk, dtype=np.int16)` decodes consecutive little-endian byte
pairs and raises when the length is odd.  The float32 pipeline
(`np.sum`/division) is modelled exactly over `ℚ`, and the sample-wise tail
`tanh(x/32768)*32767` followed by the int16 clamp-and-cast is abstracted as a
parameter `lim : ℚ → Int`, applied identically wherever the source applies
it. -/

/-- Reinterpret an unsigned 16-bit value as a signed int16. -/
def toInt16 (n : Nat) : Int :=
  if n % 65536 < 32768 then ((n % 65536 : Nat) : Int) else ((n % 65536 : Nat) : Int) - 65536

/-- The sample list `np.frombuffer` yields on an even-length buffer
(little-endian int16 pairs). -/
def pairsLE : List Nat → List Int
  | b0 :: b1 :: rest => toInt16 (b0 + 256 * b1) :: pairsLE rest
  | _ => []

/-- `np.frombuffer(chunk, dtype=np.int16)`: succeeds exactly when the buffer
length is a multiple of two. -/
def decodeInt16 (c : List Nat) : Option (List Int) :=
  if c.length % 2 = 0 then some (pairsLE c) else none

/-- The `contributors` list comprehension: every stored chunk except the
target's own, keeping only truthy (non-empty) chunks, in registry order. -/
def contributors (latest : List (Nat × List Nat)) (target : Nat) : List (List Nat) :=
  (latest.filter (fun p => decide (p.1 ≠ target) && !p.2.isEmpty)).map (fun p => p.2)

/-- The `arrays` accumulation loop: chunks shorter than two bytes are
skipped, as are chunks `np.frombuffer` rejects (odd length). -/
def decodedArrays (cs : List (List Nat)) : List (List Int) :=
  cs.filterMap (fun c => if c.length < 2 then none else decodeInt16 c)

/-- The incrementally tracked `min_length` (minimum of the decoded sizes). -/
def minLen : List (List Int) → Option Nat
  | [] => none
  | a :: rest => some (rest.foldl (fun m x => min m x.length) a.length)

/-- Sample-wise float sum of the trimmed arrays followed by the division by
the contributor count: `np.sum(arrays, axis=0) / max(len(arrays), 1)`. -/
def sumsDiv (trimmed : List (List Int)) (m : Nat) (divisor : Nat) : List ℚ :=
  (List.range m).map (fun i =>
    (trimmed.foldl (fun acc a => acc + ((a.getD i 0 : Int) : ℚ)) 0) / (divisor : ℚ))

/-- `AudioServer._build_mix_for_target`, parametrised by the sample-wise
limiter `lim` (the `tanh` soft limit, clamp and int16 cast). -/
def buildMixForTarget (latest : List (Nat × List Nat)) (target : Nat) (lim : ℚ → Int) :
    Option (List Int) :=
  let cs := contributors latest target
  if cs.isEmpty then none
  else
    let arrs := decodedArrays cs
    match minLen arrs with
    | none => none
    | some m =>
        if m = 0 then none
        else
          let trimmed := arrs.map (fun a => a.take m)
          some ((sumsDiv trimmed m (max arrs.length 1)).map lim)

/-- Modelled from the spec (§4.5 mixing algorithm), for comparison with
`buildMixForTarget`: decode EVERY contributing chunk as 16-bit signed PCM
(undefined if any chunk cannot be decoded), truncate all decoded buffers to
the shortest common length, sum as floating point, divide by the number of
contributors, then apply the limiter sample-wise. -/
def decodeAllChunks : List (List Nat) → Option (List (List Int))
  | [] => some []
  | c :: rest =>
      match decodeInt16 c, decodeAllChunks rest with
      | some a, some ts => some (a :: ts)
      | _, _ => none

/-- The reference downmix stated by the spec (see `decodeAllChunks`). -/
def refDownmix (latest : List (Nat × List Nat)) (target : Nat) (lim : ℚ → Int) :
    Option (List Int) :=
  let cs := contributors latest target
  if cs.isEmpty then none
  else
    match decodeAllChunks cs with
    | none => none
    | some arrs =>
        match minLen arrs with
        | none => none
        | some m =>
            let trimmed := arrs.map (fun a => a.take m)
            some ((sumsDiv trimmed m cs.length).map lim)

/-- A concrete limiter placeholder used in closed counterexamples (the
divergence exhibited is independent of the limiter). -/
def zeroLim : ℚ → Int := fun _ => 0

end AudioMix

namespace UdpRelay

/-!
Model of the UDP receive loops `VideoServer._receive_and_broadcast`
(src/server_modules/video_module.py) and
`AudioServer._receive_and_broadcast` (src/server_modules/audio_module.py).
Source addresses are numbers; usernames are kept as the raw bytes after the
`REGISTER|` prefix (the lossy utf-8 decode is irrelevant to the properties
proved here).  `f : Nat → Bool` gives the outcome of each `sendto`.
-/

/-- The bytes of `b"REGISTER|"`. -/
def REGISTER_PREFIX : List Nat := [82, 69, 71, 73, 83, 84, 69, 82, 124]

/-- `data.startswith(pre)` on byte strings. -/
def startsWith : List Nat → List Nat → Bool
  | [], _ => true
  | _ :: _, [] => false
  | p :: ps, d :: ds => decide (p = d) && startsWith ps ds

/-- State of `VideoServer`: `self.clients` and `self.last_seen`. -/
structure VidState : Type where
  clients : List (Nat × List Nat)
  lastSeen : List (Nat × Int)
deriving DecidableEq

/-- Drop an address from both video registries (the pruning after a failed
relay send). -/
def vidPrune (s : VidState) (addr : Nat) : VidState :=
  { clients := alRemove s.clients addr, lastSeen := alRemove s.lastSeen addr }

/-- One iteration of `VideoServer._receive_and_broadcast` for a received
`(data, address)`: registration packets update the registries (and echo the
packet back to a re-registering client), other packets from known addresses
are relayed verbatim to every other client with per-peer pruning on send
failure, and anything else is dropped.  Returns the new state and the sent
`(recipient, bytes)` pairs. -/
def videoStep (s : VidState) (data : List Nat) (addr : Nat) (now : Int)
    (f : Nat → Bool) : VidState × List (Nat × List Nat) :=
  if data.isEmpty then (s, [])
  else if startsWith REGISTER_PREFIX data then
    let uname := data.drop REGISTER_PREFIX.length
    let echo :=
      if alGet s.clients addr = some uname && f addr then [(addr, data)] else []
    ({ clients := alSet s.clients addr uname, lastSeen := alSet s.lastSeen addr now },
     echo)
  else
    match alGet s.clients addr with
    | none => (s, [])
    | some _ =>
        let s1 : VidState := { s with lastSeen := alSet s.lastSeen addr now }
        let targets := (s1.clients.map (fun c => c.1)).filter (fun a => decide (a ≠ addr))
        let sends := targets.filterMap (fun a => if f a then some (a, data) else none)
        let dead := targets.filter (fun a => !(f a))
        (dead.foldl vidPrune s1, sends)

/-- State of `AudioServer`: `self.clients`, `self.last_seen` and
`self.latest_chunks`. -/
structure AudState : Type where
  clients : List (Nat × List Nat)
  lastSeen : List (Nat × Int)
  latestChunks : List (Nat × List Nat)
deriving DecidableEq

/-- Drop an address from all three audio registries. -/
def audPrune (s : AudState) (addr : Nat) : AudState :=
  { clients := alRemove s.clients addr, lastSeen := alRemove s.lastSeen addr,
    latestChunks := alRemove s.latestChunks addr }

/-- One iteration of `AudioServer._receive_and_broadcast`, parametrised by
the limiter `lim` of `AudioMix.buildMixForTarget`: registration updates the
registries (`latest_chunks.setdefault(address, b"")`), a data packet from a
known address overwrites the sender's latest chunk and fans out a personal
downmix to every other client (skipping empty mixes, pruning failed sends),
and anything else is dropped. -/
def audioStep (lim : ℚ → Int) (s : AudState) (data : List Nat) (addr : Nat)
    (now : Int) (f : Nat → Bool) : AudState × List (Nat × List Int) :=
  if data.isEmpty then (s, [])
  else if startsWith REGISTER_PREFIX data then
    let uname := data.drop REGISTER_PREFIX.length
    ({ clients := alSet s.clients addr uname, lastSeen := alSet s.lastSeen addr now,
       latestChunks := alSetD s.latestChunks addr [] }, [])
  else
    match alGet s.clients addr with
    | none => (s, [])
    | some _ =>
        let s1 : AudState :=
          { s with lastSeen := alSet s.lastSeen addr now,
                   latestChunks := alSet s.latestChunks addr data }
        let targets := (s1.clients.map (fun c => c.1)).filter (fun a => decide (a ≠ addr))
        let sends := targets.filterMap (fun a =>
          match AudioMix.buildMixForTarget s1.latestChunks a lim with
          | none => none
          | some mix => if f a then some (a, mix) else none)
        let dead := targets.filter (fun a =>
          (AudioMix.buildMixForTarget s1.latestChunks a lim).isSome && !(f a))
        (dead.foldl audPrune s1, sends)

end UdpRelay

/-! ### Helper lemmas on the association-list operations -/

theorem alGet_alSet_self {κ α : Type} [DecidableEq κ] (l : List (κ × α)) (k : κ) (v : α) :
    alGet (alSet l k v) k = some v := by
  induction l with
  | nil => simp [alSet, alGet]
  | cons kv rest ih =>
      by_cases h : kv.1 = k
      · simp [alSet, alGet, h]
      · simp [alSet, alGet, h, ih]

theorem alGet_alRemove_self {κ α : Type} [DecidableEq κ] (l : List (κ × α)) (k : κ) :
    alGet (alRemove l k) k = none := by
  induction l with
  | nil => simp [alRemove, alGet]
  | cons kv rest ih =>
      by_cases h : kv.1 = k
      · simpa [alRemove, alGet, h] using ih
      · simpa [alRemove, alGet, h] using ih

theorem alGet_mem {κ α : Type} [DecidableEq κ] {l : List (κ × α)} {k : κ} {v : α}
    (h : alGet l k = some v) : (k, v) ∈ l := by
  induction l with
  | nil => simp [alGet] at h
  | cons kv rest ih =>
      by_cases hk : kv.1 = k
      · rw [alGet, if_pos hk] at h
        have : kv = (k, v) := by
          cases kv
          simp_all
        simp [this]
      · rw [alGet, if_neg hk] at h
        exact List.mem_cons_of_mem _ (ih h)

theorem keyMem_of_mem {κ : Type} [DecidableEq κ] {k : κ} {st : List κ} (h : k ∈ st) :
    keyMem k st = true := by
  induction st with
  | nil => simp at h
  | cons x xs ih =>
      by_cases hx : x = k
      · simp [keyMem, hx]
      · have : k ∈ xs := by
          rcases List.mem_cons.mp h with h1 | h1
          · exact absurd h1.symm hx
          · exact h1
        simp [keyMem, hx, ih this]

theorem alGet_filter_out {κ α : Type} [DecidableEq κ] (l : List (κ × α)) (st : List κ)
    (k : κ) (hk : keyMem k st = true) :
    alGet (l.filter (fun kv => !(keyMem kv.1 st))) k = none := by
  induction l with
  | nil => simp [alGet]
  | cons kv rest ih =>
      by_cases h : keyMem kv.1 st = true
      · simpa [List.filter_cons, h] using ih
      · have hne : kv.1 ≠ k := fun he => h (he ▸ hk)
        simpa [List.filter_cons, h, alGet, hne] using ih

/-! ### Helper lemmas for the screen relay -/

theorem ScreenRelay.removeClient_presenter (u : String) (s : ScreenRelay.SState) :
    (ScreenRelay.removeClient u s).presenter = s.presenter := rfl

theorem ScreenRelay.removeAll_presenter (us : List String) (s : ScreenRelay.SState) :
    (ScreenRelay.removeAll us s).presenter = s.presenter := by
  induction us generalizing s with
  | nil => rfl
  | cons u us ih => simpa [ScreenRelay.removeAll, List.foldl_cons] using ih _

theorem ScreenRelay.mem_removeClient {v : String} {s : ScreenRelay.SState} (u : String)
    (hv : v ∈ s.clients) (hne : v ≠ u) : v ∈ (ScreenRelay.removeClient u s).clients := by
  simp [ScreenRelay.removeClient, List.mem_filter, hv, hne]

theorem ScreenRelay.mem_removeAll {v : String} {us : List String} {s : ScreenRelay.SState}
    (hv : v ∈ s.clients) (hus : v ∉ us) : v ∈ (ScreenRelay.removeAll us s).clients := by
  induction us generalizing s with
  | nil => exact hv
  | cons u us ih =>
      have h1 : v ≠ u := fun he => hus (by simp [he])
      have h2 : v ∉ us := fun he => hus (List.mem_cons_of_mem _ he)
      simpa [ScreenRelay.removeAll, List.foldl_cons] using
        ih (ScreenRelay.mem_removeClient u hv h1) h2

theorem ScreenRelay.sendToClient_fst_ok (f : String → Bool) (u : String)
    (m : ScreenRelay.SMsg) (s : ScreenRelay.SState) (hf : f u = true) :
    (ScreenRelay.sendToClient f u m s).1 = s := by
  by_cases hu : u ∈ s.clients <;> simp [ScreenRelay.sendToClient, hu, hf]

theorem ScreenRelay.inv_of_none {s : ScreenRelay.SState} (h : s.presenter = none) :
    ScreenRelay.Inv s := by
  simp [ScreenRelay.Inv, h]

theorem ScreenRelay.inv_of_mem {s : ScreenRelay.SState} {p : String}
    (h : s.presenter = some p) (hm : p ∈ s.clients) : ScreenRelay.Inv s := by
  simp [ScreenRelay.Inv, h, hm]

theorem ScreenRelay.inv_elim {s : ScreenRelay.SState} {p : String}
    (hInv : ScreenRelay.Inv s) (h : s.presenter = some p) : p ∈ s.clients := by
  simpa [ScreenRelay.Inv, h] using hInv

theorem ScreenRelay.broadcastAll_fst (f : String → Bool) (m : ScreenRelay.SMsg)
    (s : ScreenRelay.SState) :
    (ScreenRelay.broadcastAll f m s).1
      = ScreenRelay.removeAll (s.clients.filter (fun u => !(f u))) s := rfl

theorem ScreenRelay.broadcastAllExcept_fst (sender : String) (f : String → Bool)
    (m : ScreenRelay.SMsg) (s : ScreenRelay.SState) :
    (ScreenRelay.broadcastAllExcept sender f m s).1
      = ScreenRelay.removeAll
          ((s.clients.filter (fun u => decide (u ≠ sender))).filter (fun u => !(f u))) s := rfl

/-- Claim C1, counterexample: from the invariant-satisfying state with the
single client "A" and no presenter, processing `start_presenting("A")` while
every `sendall` fails removes "A" from the registry (first during the
`presenter_started` broadcast) but leaves `current_presenter = "A"`, because
`_remove_client` never clears the presenter slot.  The claimed invariant is
therefore violated after an operation whose send failure removes the
presenter. -/
theorem screen_presenter_invariant_cex :
    ScreenRelay.Inv ⟨["A"], none⟩
    ∧ (ScreenRelay.stepOp (.start "A") ScreenRelay.allFail ⟨["A"], none⟩).1
        = ⟨[], some "A"⟩
    ∧ ¬ ScreenRelay.Inv (ScreenRelay.stepOp (.start "A") ScreenRelay.allFail ⟨["A"], none⟩).1 := by
  refine ⟨by decide, by decide, by decide⟩

/-- Claim C1 (amended): after every screen-relay operation (client connect,
start_presenting, stop_presenting, screen_frame relay, disconnect-triggered
removal, including the removals triggered by send failures during the
operation's broadcasts and direct sends), the presenter state is either
empty or names a client present in the registry — PROVIDED the operation's
subject client is still registered when it requests `start_presenting` and
the sends addressed to the subject itself succeed.  (Send failures towards
other clients are harmless; a send failure that removes the presenter
itself breaks the invariant, see the counterexample.) -/
theorem screen_presenter_invariant_preserved (op : ScreenRelay.SOp) (f : String → Bool)
    (s : ScreenRelay.SState) (hInv : ScreenRelay.Inv s) (hpre : op.pre s)
    (hf : f op.subject = true) : ScreenRelay.Inv (ScreenRelay.stepOp op f s).1 := by
  cases op with
  | connect u =>
      have hfu : f u = true := hf
      simp only [ScreenRelay.stepOp, ScreenRelay.connect]
      cases hp : s.presenter with
      | none => exact ScreenRelay.inv_of_none (by simp [hp])
      | some p =>
          simp only [hp]
          rw [ScreenRelay.sendToClient_fst_ok _ _ _ _ hfu]
          refine ScreenRelay.inv_of_mem (p := p) (by simp [hp]) ?_
          have hps : p ∈ s.clients := ScreenRelay.inv_elim hInv hp
          by_cases hu : u ∈ s.clients <;> simp [hu, hps]
  | start u =>
      have hfu : f u = true := hf
      have hus : u ∈ s.clients := hpre
      simp only [ScreenRelay.stepOp, ScreenRelay.startPresenting]
      cases hp : s.presenter with
      | none =>
          simp only [hp]
          rw [ScreenRelay.sendToClient_fst_ok _ _ _ _ hfu, ScreenRelay.broadcastAll_fst]
          refine ScreenRelay.inv_of_mem (p := u) ?_ ?_
          · rw [ScreenRelay.removeAll_presenter]
          · refine ScreenRelay.mem_removeAll hus ?_
            intro hmem
            rw [List.mem_filter] at hmem
            simp [hfu] at hmem
      | some p =>
          simp only [hp]
          rw [ScreenRelay.sendToClient_fst_ok _ _ _ _ hfu]
          exact hInv
  | stop u =>
      simp only [ScreenRelay.stepOp, ScreenRelay.stopPresenting]
      by_cases hps : s.presenter = some u
      · rw [if_pos hps, ScreenRelay.broadcastAll_fst]
        exact ScreenRelay.inv_of_none (by rw [ScreenRelay.removeAll_presenter])
      · rw [if_neg hps]
        exact hInv
  | frame u payload =>
      simp only [ScreenRelay.stepOp, ScreenRelay.screenFrame]
      by_cases hps : s.presenter = some u
      · rw [if_pos hps, ScreenRelay.broadcastAllExcept_fst]
        refine ScreenRelay.inv_of_mem (p := u) ?_ ?_
        · rw [ScreenRelay.removeAll_presenter]
          exact hps
        · refine ScreenRelay.mem_removeAll (ScreenRelay.inv_elim hInv hps) ?_
          intro hmem
          rw [List.mem_filter, List.mem_filter] at hmem
          simp at hmem
      · rw [if_neg hps]
        exact hInv
  | disconnect u =>
      simp only [ScreenRelay.stepOp, ScreenRelay.disconnect, ScreenRelay.stopPresenting]
      by_cases hps : s.presenter = some u
      · rw [if_pos hps, ScreenRelay.broadcastAll_fst]
        refine ScreenRelay.inv_of_none ?_
        rw [ScreenRelay.removeClient_presenter, ScreenRelay.removeAll_presenter]
      · rw [if_neg hps]
        cases hp : s.presenter with
        | none => exact ScreenRelay.inv_of_none (by simp [hp, ScreenRelay.removeClient])
        | some p =>
            refine ScreenRelay.inv_of_mem (p := p) (by simp [hp, ScreenRelay.removeClient]) ?_
            refine ScreenRelay.mem_removeClient u (ScreenRelay.inv_elim hInv hp) ?_
            intro he
            exact hps (he ▸ hp)

/-- Claim C1, witness: the amended invariant preservation applied to
`start_presenting("B")` with all sends succeeding from the two-client state. -/
theorem screen_presenter_invariant_witness :
    ScreenRelay.Inv (ScreenRelay.stepOp (.start "B") ScreenRelay.allOk ⟨["A", "B"], none⟩).1 :=
  screen_presenter_invariant_preserved (.start "B") ScreenRelay.allOk ⟨["A", "B"], none⟩
    (by decide) (show ("B" : String) ∈ ["A", "B"] by decide) rfl

theorem ScreenRelay.broadcastAll_allOk (m : ScreenRelay.SMsg) (s : ScreenRelay.SState) :
    ScreenRelay.broadcastAll ScreenRelay.allOk m s
      = (s, s.clients.map (fun u => (u, m))) := by
  unfold ScreenRelay.broadcastAll ScreenRelay.removeAll ScreenRelay.allOk
  simp
  rw [show (fun u : String => some (u, m)) = some ∘ (fun u : String => (u, m)) from rfl,
    List.filterMap_eq_map]

/-- Claim C4: with presenter A, a `start_presenting` request from a distinct
registered client B leaves the state unchanged and sends
`presenting_allowed(false, current_presenter=A)` to B only; `stop_presenting`
from A empties the presenter slot and broadcasts `presenter_stopped(A)` to
all clients; a subsequent `start_presenting` from B then makes B the
presenter, broadcasts `presenter_started(B)` to all, and replies
`presenting_allowed(true)` to B.  (All sends succeed.) -/
theorem screen_exclusive_presenter_arbitration
    (s : ScreenRelay.SState) (a b : String)
    (hpres : s.presenter = some a) (_hab : b ≠ a) (hb : b ∈ s.clients) :
    ScreenRelay.stepOp (.start b) ScreenRelay.allOk s
      = (s, [(b, .presentingAllowed false (some a))])
    ∧ ScreenRelay.stepOp (.stop a) ScreenRelay.allOk s
      = ({ s with presenter := none }, s.clients.map (fun u => (u, .presenterStopped a)))
    ∧ ScreenRelay.stepOp (.start b) ScreenRelay.allOk { s with presenter := none }
      = ({ s with presenter := some b },
         s.clients.map (fun u => (u, .presenterStarted b)) ++ [(b, .presentingAllowed true none)]) := by
  refine ⟨?_, ?_, ?_⟩
  · simp only [ScreenRelay.stepOp, ScreenRelay.startPresenting, hpres]
    simp [ScreenRelay.sendToClient, hb, ScreenRelay.allOk]
  · simp only [ScreenRelay.stepOp, ScreenRelay.stopPresenting, hpres, if_pos]
    rw [ScreenRelay.broadcastAll_allOk]
  · simp only [ScreenRelay.stepOp, ScreenRelay.startPresenting]
    rw [ScreenRelay.broadcastAll_allOk]
    simp [ScreenRelay.sendToClient, hb, ScreenRelay.allOk]

/-- Claim C4, witness: the arbitration sequence run concretely with clients
A and B while A presents. -/
theorem screen_exclusive_presenter_arbitration_witness :
    ScreenRelay.stepOp (.start "B") ScreenRelay.allOk ⟨["A", "B"], some "A"⟩
      = (⟨["A", "B"], some "A"⟩, [("B", .presentingAllowed false (some "A"))])
    ∧ ScreenRelay.stepOp (.stop "A") ScreenRelay.allOk ⟨["A", "B"], some "A"⟩
      = (⟨["A", "B"], none⟩,
         [("A", .presenterStopped "A"), ("B", .presenterStopped "A")])
    ∧ ScreenRelay.stepOp (.start "B") ScreenRelay.allOk ⟨["A", "B"], none⟩
      = (⟨["A", "B"], some "B"⟩,
         [("A", .presenterStarted "B"), ("B", .presenterStarted "B"),
          ("B", .presentingAllowed true none)]) := by
  simpa using screen_exclusive_presenter_arbitration ⟨["A", "B"], some "A"⟩ "A" "B" rfl
    (by decide) (by decide)

theorem Orchestrator.runStart_fail (m : Orchestrator.Mod) (post : List Orchestrator.Mod)
    (hfail : m.res ≠ .ok) :
    ∀ (pre : List Orchestrator.Mod) (started : List String), (∀ x ∈ pre, x.res = .ok) →
      Orchestrator.runStart (pre ++ m :: post) started
        = ⟨(started ++ pre.map Orchestrator.Mod.name).reverse, [], false, true⟩ := by
  intro pre
  induction pre with
  | nil =>
      intro started h
      cases hm : m.res with
      | ok => exact absurd hm hfail
      | retFalse => simp [Orchestrator.runStart, hm]
      | raises => simp [Orchestrator.runStart, hm]
  | cons x pre ih =>
      intro started h
      have hx : x.res = .ok := h x (List.mem_cons_self _ _)
      simp only [List.cons_append, Orchestrator.runStart, hx, List.append_eq]
      rw [ih (started ++ [x.name]) (fun y hy => h y (List.mem_cons_of_mem _ hy))]
      simp

/-- Claim C8: when some module's `start()` fails (raises or returns `False`)
after the modules before it all started, `start_modules` stops exactly the
already-started modules, in reverse start order, ends not running with an
empty active-module set, and re-raises the failure to the caller. -/
theorem orchestrator_rollback_on_failure (pre post : List Orchestrator.Mod)
    (m : Orchestrator.Mod) (hok : ∀ x ∈ pre, x.res = .ok) (hfail : m.res ≠ .ok) :
    Orchestrator.startModules (pre ++ m :: post)
      = ⟨(pre.map Orchestrator.Mod.name).reverse, [], false, true⟩ := by
  unfold Orchestrator.startModules
  rw [Orchestrator.runStart_fail m post hfail pre [] hok]
  simp

/-- Claim C8, witness: the third of four modules raising on start rolls back
the first two in reverse order. -/
theorem orchestrator_rollback_on_failure_witness :
    Orchestrator.startModules
        [⟨"Chat", .ok⟩, ⟨"File", .ok⟩, ⟨"Video", .raises⟩, ⟨"Audio", .ok⟩]
      = ⟨["File", "Chat"], [], false, true⟩ := by
  simpa using orchestrator_rollback_on_failure [⟨"Chat", .ok⟩, ⟨"File", .ok⟩]
    [⟨"Audio", .ok⟩] ⟨"Video", .raises⟩ (by decide) (by decide)

/-- Claim C10: in both the video relay and the audio mixer, a datagram that
does not begin with `REGISTER|` and whose source address is not in the client
registry is ignored: the state (registries, last-seen, latest-chunk store) is
unchanged and nothing is sent to anyone. -/
theorem udp_unknown_source_ignored (vid : UdpRelay.VidState) (aud : UdpRelay.AudState)
    (data : List Nat) (addr : Nat) (now : Int) (f : Nat → Bool) (lim : ℚ → Int)
    (hreg : UdpRelay.startsWith UdpRelay.REGISTER_PREFIX data = false)
    (hv : alGet vid.clients addr = none) (ha : alGet aud.clients addr = none) :
    UdpRelay.videoStep vid data addr now f = (vid, [])
    ∧ UdpRelay.audioStep lim aud data addr now f = (aud, []) := by
  by_cases hd : data.isEmpty
  · constructor <;> simp [UdpRelay.videoStep, UdpRelay.audioStep, hd]
  · constructor <;> simp [UdpRelay.videoStep, UdpRelay.audioStep, hd, hreg, hv, ha]

/-- Claim C10, witness: a non-registration datagram from the unknown address
9 is dropped by both relays while address 5 is registered. -/
theorem udp_unknown_source_ignored_witness :
    UdpRelay.videoStep ⟨[(5, [97])], [(5, 0)]⟩ [70, 1, 2] 9 100 (fun _ => true)
      = (⟨[(5, [97])], [(5, 0)]⟩, [])
    ∧ UdpRelay.audioStep AudioMix.zeroLim ⟨[(5, [97])], [(5, 0)], [(5, [])]⟩
        [70, 1, 2] 9 100 (fun _ => true)
      = (⟨[(5, [97])], [(5, 0)], [(5, [])]⟩, []) :=
  udp_unknown_source_ignored ⟨[(5, [97])], [(5, 0)]⟩ ⟨[(5, [97])], [(5, 0)], [(5, [])]⟩
    [70, 1, 2] 9 100 (fun _ => true) AudioMix.zeroLim (by decide) (by decide) (by decide)

/-- Claim C2: the receive loop of the upload `a.txt` (declared size 10) ends
after only 5 bytes because the client disconnects, yet `_handle_upload`
unconditionally registers the file in the catalog with the DECLARED size,
replies success, and broadcasts a `file_list_update` naming it.  This
contradicts the claim (and the catalog's own meaning: the entry advertises
10 bytes while 5 were stored), so the catalog is NOT left unchanged. -/
theorem upload_partial_transfer_registers_file :
    (FileCatalog.recvLoop 10 0 [] [[1, 2, 3, 4, 5]]).1 = 5
    ∧ FileCatalog.handleUpload [] ⟨"a.txt", 10, "bob"⟩ [[1, 2, 3, 4, 5]]
      = ([("a.txt", ⟨10, "bob"⟩)], [.ready, .successResp],
         some [("a.txt", ⟨10, "bob"⟩)], [1, 2, 3, 4, 5], []) :=
  ⟨rfl, rfl⟩

/-- Claim C7, counterexample: after a successful 3-byte upload of `a.txt`,
an oversized upload request for the SAME filename is correctly answered with
an error — but `a.txt` is not absent from the catalog nor from the
subsequent LIST response, refuting the claim's unconditional absence. -/
theorem oversized_upload_cex :
    (FileCatalog.handleClient [] [.upload ⟨"a.txt", 3, "bob"⟩ [[1, 2, 3]],
        .upload ⟨"a.txt", 524288001, "bob"⟩ [], .listCmd]).2
      = [.ready, .successResp, .errorResp, .listResp [("a.txt", ⟨3, "bob"⟩)]]
    ∧ alGet (FileCatalog.handleClient [] [.upload ⟨"a.txt", 3, "bob"⟩ [[1, 2, 3]],
        .upload ⟨"a.txt", 524288001, "bob"⟩ [], .listCmd]).1 "a.txt"
      = some ⟨3, "bob"⟩ := by
  decide

/-- Claim C7 (amended): an UPLOAD whose declared filesize exceeds the 500 MiB
maximum is answered with just the error status; no stream byte is read, no
file byte is written, no broadcast is pushed, the catalog is left unchanged
(so the filename stays absent from subsequent LIST responses unless it was
already present or is added by a different request), and the connection
remains open: the remaining commands are processed exactly as if the
oversized request had not happened. -/
theorem oversized_upload_rejected (catalog : List (String × FileCatalog.Entry))
    (r : FileCatalog.UploadReq) (stream : List (List Nat)) (rest : List FileCatalog.FReq)
    (h : r.filesize > FileCatalog.MAX_FILE_SIZE) :
    FileCatalog.handleUpload catalog r stream = (catalog, [.errorResp], none, [], stream)
    ∧ FileCatalog.handleClient catalog (.upload r stream :: rest)
      = ((FileCatalog.handleClient catalog rest).1,
         .errorResp :: (FileCatalog.handleClient catalog rest).2) := by
  have h1 : FileCatalog.handleUpload catalog r stream
      = (catalog, [.errorResp], none, [], stream) := by
    unfold FileCatalog.handleUpload
    rw [if_pos h]
  refine ⟨h1, ?_⟩
  simp [FileCatalog.handleClient, h1]

/-- Claim C7, witness: an oversized upload on a fresh connection, followed by
a LIST that shows the untouched empty catalog. -/
theorem oversized_upload_rejected_witness :
    FileCatalog.handleUpload [] ⟨"big.bin", 524288001, "eve"⟩ []
      = ([], [.errorResp], none, [], [])
    ∧ FileCatalog.handleClient [] [.upload ⟨"big.bin", 524288001, "eve"⟩ [], .listCmd]
      = ([], [.errorResp, .listResp []]) := by
  simpa using oversized_upload_rejected [] ⟨"big.bin", 524288001, "eve"⟩ [] [.listCmd]
    (by decide)

/-- Claim C9: a participant connecting as `u` creates (or overwrites) the
record `{status := "online", joined_at := now, video_active := false}`, and
the connect broadcast sends every connected client (including the new one,
which first gets its private copy) a roster containing that record; removing
`u`'s connection (clean close, timeout or error all funnel into
`_remove_participant`) deletes the record and the removal broadcast's roster
no longer contains `u`. -/
theorem participant_connect_disconnect_roster (s : Participants.PState)
    (sock sock2 : Nat) (u : String) (t : Nat) :
    (Participants.connect sock u t s).1.participants
        = alSet s.participants u ⟨"online", t, false⟩
    ∧ alGet (Participants.connect sock u t s).1.participants u
        = some ⟨"online", t, false⟩
    ∧ (Participants.connect sock u t s).2
        = (sock, alSet s.participants u ⟨"online", t, false⟩)
          :: (alSet s.clients sock u).map
               (fun c => (c.1, alSet s.participants u ⟨"online", t, false⟩))
    ∧ (Participants.removeParticipant sock2 u (Participants.connect sock u t s).1).1.participants
        = alRemove (alSet s.participants u ⟨"online", t, false⟩) u
    ∧ alGet (Participants.removeParticipant sock2 u
          (Participants.connect sock u t s).1).1.participants u
        = none
    ∧ (Participants.removeParticipant sock2 u (Participants.connect sock u t s).1).2
        = (alRemove (alSet s.clients sock u) sock2).map
            (fun c => (c.1, alRemove (alSet s.participants u ⟨"online", t, false⟩) u)) := by
  refine ⟨rfl, alGet_alSet_self _ _ _, rfl, ?_, ?_, ?_⟩
  · simp [Participants.removeParticipant, Participants.connect, alGet_alSet_self]
  · simp [Participants.removeParticipant, Participants.connect, alGet_alSet_self,
      alGet_alRemove_self]
  · simp [Participants.removeParticipant, Participants.connect, Participants.rosterTo,
      alGet_alSet_self]

theorem VideoChunk.chunksOf_flatten (c : Nat) (hc : 0 < c) (l : List Nat) :
    (VideoChunk.chunksOf c l).flatten = l := by
  by_cases hl : l.length ≤ c
  · have h2 : (l.length + c - 1) / c < 2 := (Nat.div_lt_iff_lt_mul hc).mpr (by omega)
    have htc : max 1 ((l.length + c - 1) / c) = 1 := by omega
    unfold VideoChunk.chunksOf
    rw [htc, show List.range 1 = [0] from rfl]
    simp
    exact hl
  · push_neg at hl
    have heq : (l.length + c - 1) / c = (l.length - 1) / c + 1 := by
      have h3 : l.length + c - 1 = (l.length - 1) + c := by omega
      rw [h3, Nat.add_div_right _ hc]
    have h1le : 1 ≤ (l.length - 1) / c := (Nat.one_le_div_iff hc).mpr (by omega)
    have htc : max 1 ((l.length + c - 1) / c) = (l.length - 1) / c + 1 := by omega
    have hdl : (l.drop c).length = l.length - c := by simp
    have heq2 : ((l.drop c).length + c - 1) / c = (l.length - 1) / c := by
      rw [hdl]
      congr 1
      omega
    have htc2 : max 1 (((l.drop c).length + c - 1) / c) = (l.length - 1) / c := by
      rw [heq2]
      omega
    have hrec : (VideoChunk.chunksOf c (l.drop c)).flatten = l.drop c :=
      VideoChunk.chunksOf_flatten c hc (l.drop c)
    unfold VideoChunk.chunksOf at hrec ⊢
    rw [htc, htc2] at *
    rw [List.range_succ_eq_map, List.map_cons, List.map_map, List.flatten_cons]
    have hfun : ((fun i => (l.drop (i * c)).take c) ∘ Nat.succ)
        = (fun i => ((l.drop c).drop (i * c)).take c) := by
      funext i
      simp [List.drop_drop, Nat.succ_mul]
      congr 2
      omega
    rw [hfun, hrec]
    simp [List.take_append_drop]
termination_by l.length
decreasing_by
  have _hdrop := List.length_drop c l
  omega

theorem VideoChunk.delivery_complete (username : String) (s : VideoChunk.AsmState)
    (p : VideoChunk.Packet) (now : Int)
    (hdel : (VideoChunk.handleFrameChunk username s p now).2.isSome = true) :
    ∀ i, i < p.total → (alGet (VideoChunk.bufAfter s p) i).isSome = true := by
  intro i hi
  unfold VideoChunk.handleFrameChunk at hdel
  by_cases h1 : p.sender = username
  · simp [h1] at hdel
  · simp only [h1, if_false] at hdel
    by_cases h2 : (VideoChunk.bufAfter s p).length = p.total
    · simp only [h2, if_true] at hdel
      by_cases h3 : ((List.range p.total).map
          (fun j => alGet (VideoChunk.bufAfter s p) j)).any (fun o => o.isNone)
      · simp [h3] at hdel
      · have hmem : alGet (VideoChunk.bufAfter s p) i
            ∈ (List.range p.total).map (fun j => alGet (VideoChunk.bufAfter s p) j) :=
          List.mem_map_of_mem _ (List.mem_range.mpr hi)
        rw [List.any_eq_true] at h3
        push_neg at h3
        have := h3 _ hmem
        cases halt : alGet (VideoChunk.bufAfter s p) i with
        | none => rw [halt] at this; simp at this
        | some v => rfl
    · simp [h2] at hdel

/-- Claim C3: (a) splitting a frame byte sequence into
`max(1, ceil(len/8192))` consecutive at-most-8-KiB chunks as `_send_frame`
does and concatenating the payloads of chunks `0..total_chunks-1` in index
order reproduces the original byte sequence exactly; (b) whenever
`_handle_frame_chunk` delivers a frame to the video callback, every chunk
index `0..total_chunks-1` is present in the assembly buffer — a frame with
any index absent is never delivered. -/
theorem video_frame_roundtrip_and_completeness :
    (∀ (u : String) (fid : Nat) (frame : List Nat),
        ((VideoChunk.sendFrame u fid frame).map VideoChunk.Packet.payload).flatten = frame)
    ∧ (∀ (username : String) (s : VideoChunk.AsmState) (p : VideoChunk.Packet) (now : Int),
        (VideoChunk.handleFrameChunk username s p now).2.isSome = true →
        ∀ i, i < p.total → (alGet (VideoChunk.bufAfter s p) i).isSome = true) := by
  constructor
  · intro u fid frame
    have he : (VideoChunk.sendFrame u fid frame).map VideoChunk.Packet.payload
        = VideoChunk.chunksOf VideoChunk.MAX_DATAGRAM_SIZE frame := by
      unfold VideoChunk.sendFrame VideoChunk.chunksOf VideoChunk.totalChunksFor
      rw [List.map_map]
      rfl
    rw [he, VideoChunk.chunksOf_flatten VideoChunk.MAX_DATAGRAM_SIZE (by decide) frame]
  · exact VideoChunk.delivery_complete

/-- Claim C3, witness: the roundtrip on a 3-byte frame and the completeness
guard at a concrete single-chunk delivery. -/
theorem video_frame_roundtrip_witness :
    ((VideoChunk.sendFrame "a" 5 [1, 2, 3]).map VideoChunk.Packet.payload).flatten = [1, 2, 3]
    ∧ (alGet (VideoChunk.bufAfter ⟨[], []⟩ ⟨"x", 0, 0, 1, [7]⟩) 0).isSome = true :=
  ⟨video_frame_roundtrip_and_completeness.1 "a" 5 [1, 2, 3],
   video_frame_roundtrip_and_completeness.2 "me" ⟨[], []⟩ ⟨"x", 0, 0, 1, [7]⟩ 0
     (by decide) 0 (by decide)⟩

/-- Claim C6 (amended): `_handle_frame_chunk` resets the buffer's `created`
stamp on EVERY fragment (not only the first), and `_cleanup_stale_frames`
runs only when `recvfrom` times out after 1.0 s of silence; what the code
guarantees is that a cleanup sweep at time `t` removes every incomplete
assembly buffer whose metadata is more than 1 second older than `t` (both
from `_incoming_frames` and `_frame_meta`).  An incomplete buffer may
survive past T + 1.1 s when a later fragment refreshed it or no sweep ran
(see the counterexample). -/
theorem frame_expiry_sweep_removes (s : VideoChunk.AsmState) (t : Int)
    (k : String × Nat) (tot : Nat) (c : Int)
    (hmeta : alGet s.meta k = some (tot, c))
    (hold : t - c > VideoChunk.FRAME_EXPIRY_MS) :
    alGet (VideoChunk.cleanupStale t s).incoming k = none
    ∧ alGet (VideoChunk.cleanupStale t s).meta k = none := by
  have hk : keyMem k ((s.meta.filter
      (fun kv => decide (t - kv.2.2 > VideoChunk.FRAME_EXPIRY_MS))).map (fun kv => kv.1))
      = true := by
    refine keyMem_of_mem (List.mem_map.mpr ⟨(k, (tot, c)), ?_, rfl⟩)
    rw [List.mem_filter]
    exact ⟨alGet_mem hmeta, by simpa using hold⟩
  exact ⟨alGet_filter_out _ _ _ hk, alGet_filter_out _ _ _ hk⟩

/-- Claim C6, counterexample: key ("x", 0) receives its first fragment at
T = 0 ms (chunk 0 of 3) and a second fragment at 900 ms (chunk 1 of 3, still
incomplete).  The packet at 900 ms means `recvfrom` cannot time out — and
hence no cleanup sweep can run — before 1900 ms, so the state of the
assembly map when queried at T + 1100 ms is exactly the fold over these two
events: the incomplete buffer is still present, refuting "absent at
T + 1.1 s" and "incomplete entries never outlive 1 second past creation". -/
theorem frame_expiry_cex :
    (alGet (VideoChunk.runTrace "me"
        [.pkt ⟨"x", 0, 0, 3, [1]⟩ 0, .pkt ⟨"x", 0, 1, 3, [2]⟩ 900]).incoming ("x", 0)).isSome
      = true := by
  decide

/-- Claim C6, witness: a sweep at 2000 ms removes the buffer whose metadata
was stamped at 500 ms. -/
theorem frame_expiry_witness :
    alGet (VideoChunk.cleanupStale 2000
        ⟨[(("x", 0), [(0, [1])])], [(("x", 0), (3, 500))]⟩).incoming ("x", 0) = none
    ∧ alGet (VideoChunk.cleanupStale 2000
        ⟨[(("x", 0), [(0, [1])])], [(("x", 0), (3, 500))]⟩).meta ("x", 0) = none :=
  frame_expiry_sweep_removes ⟨[(("x", 0), [(0, [1])])], [(("x", 0), (3, 500))]⟩ 2000
    ("x", 0) 3 500 (by decide) (by decide)

theorem AudioMix.contributors_ne_nil {latest : List (Nat × List Nat)} {target : Nat}
    {c : List Nat} (hc : c ∈ AudioMix.contributors latest target) : c ≠ [] := by
  unfold AudioMix.contributors at hc
  rcases List.mem_map.mp hc with ⟨p, hp, hpc⟩
  rw [List.mem_filter] at hp
  have h2 := hp.2
  rw [Bool.and_eq_true] at h2
  intro hnil
  rw [hpc, hnil] at h2
  simp at h2

theorem AudioMix.decode_even {c : List Nat} (h : c.length % 2 = 0) :
    AudioMix.decodeInt16 c = some (AudioMix.pairsLE c) := by
  unfold AudioMix.decodeInt16
  rw [if_pos h]

theorem AudioMix.pairsLE_ne_nil {c : List Nat} (h : 2 ≤ c.length) :
    AudioMix.pairsLE c ≠ [] := by
  match c, h with
  | b0 :: b1 :: rest, _ =>
      unfold AudioMix.pairsLE
      simp

theorem AudioMix.decodedArrays_eq {cs : List (List Nat)}
    (h : ∀ x ∈ cs, x ≠ [] ∧ x.length % 2 = 0) :
    AudioMix.decodedArrays cs = cs.map AudioMix.pairsLE := by
  induction cs with
  | nil => rfl
  | cons c rest ih =>
      have hc := h c (List.mem_cons_self _ _)
      have hlen : ¬ c.length < 2 := by
        have h0 : c.length ≠ 0 := fun he => hc.1 (List.eq_nil_of_length_eq_zero he)
        have h2 := hc.2
        omega
      unfold AudioMix.decodedArrays
      rw [List.filterMap_cons]
      rw [if_neg hlen, AudioMix.decode_even hc.2]
      have := ih (fun x hx => h x (List.mem_cons_of_mem _ hx))
      unfold AudioMix.decodedArrays at this
      rw [this, List.map_cons]

theorem AudioMix.decodeAllChunks_eq {cs : List (List Nat)}
    (h : ∀ x ∈ cs, x.length % 2 = 0) :
    AudioMix.decodeAllChunks cs = some (cs.map AudioMix.pairsLE) := by
  induction cs with
  | nil => rfl
  | cons c rest ih =>
      unfold AudioMix.decodeAllChunks
      rw [AudioMix.decode_even (h c (List.mem_cons_self _ _)),
        ih (fun x hx => h x (List.mem_cons_of_mem _ hx))]
      rfl

theorem AudioMix.foldlMin_pos (rest : List (List Int)) :
    ∀ acc : Nat, 0 < acc → (∀ x ∈ rest, x ≠ []) →
      0 < rest.foldl (fun m x => min m x.length) acc := by
  induction rest with
  | nil => intro acc ha _; simpa using ha
  | cons x rest ih =>
      intro acc ha h
      rw [List.foldl_cons]
      refine ih _ ?_ (fun y hy => h y (List.mem_cons_of_mem _ hy))
      have hx : x ≠ [] := h x (List.mem_cons_self _ _)
      have : 0 < x.length := List.length_pos.mpr hx
      omega

/-- Claim C5 (amended): for a listener with at least one contributor, when
EVERY contributing chunk (each other registered sender's latest non-empty
chunk) is of even byte length — i.e. decodable as 16-bit PCM — the mix built
by `_build_mix_for_target` equals the spec's reference downmix: decode each
contributing chunk, truncate to the shortest common length, sum as floating
point, divide by the number of contributors, and apply the sample-wise
limiter.  The claim's weaker hypothesis (ONE even non-empty contributor)
does not suffice, because the code silently skips undecodable (odd-length or
single-byte) chunks and divides by the count of decoded arrays only, while
the reference downmix decodes every contributor (see the counterexample). -/
theorem audio_mix_matches_reference (latest : List (Nat × List Nat)) (target : Nat)
    (lim : ℚ → Int)
    (hne : AudioMix.contributors latest target ≠ [])
    (heven : ∀ c ∈ AudioMix.contributors latest target, c.length % 2 = 0) :
    AudioMix.buildMixForTarget latest target lim = AudioMix.refDownmix latest target lim := by
  obtain ⟨c0, cs1, hcs⟩ := List.exists_cons_of_ne_nil hne
  have hnn : ∀ x ∈ c0 :: cs1, x ≠ [] ∧ x.length % 2 = 0 := by
    rw [← hcs]
    exact fun x hx => ⟨AudioMix.contributors_ne_nil hx, heven x hx⟩
  unfold AudioMix.buildMixForTarget AudioMix.refDownmix
  rw [hcs]
  dsimp only
  simp only [List.isEmpty_cons, Bool.false_eq_true, if_false]
  rw [AudioMix.decodedArrays_eq hnn, AudioMix.decodeAllChunks_eq (fun x hx => (hnn x hx).2)]
  simp only [List.map_cons]
  unfold AudioMix.minLen
  dsimp only
  have hm : 0 < (List.map AudioMix.pairsLE cs1).foldl
      (fun m x => min m x.length) (AudioMix.pairsLE c0).length := by
    refine AudioMix.foldlMin_pos _ _ ?_ ?_
    · have h0 := hnn c0 (List.mem_cons_self _ _)
      have h2 : 2 ≤ c0.length := by
        have : c0.length ≠ 0 := fun he => h0.1 (List.eq_nil_of_length_eq_zero he)
        have := h0.2
        omega
      exact List.length_pos.mpr (AudioMix.pairsLE_ne_nil h2)
    · intro x hx
      rcases List.mem_map.mp hx with ⟨y, hy, hyx⟩
      have hyn := hnn y (List.mem_cons_of_mem _ hy)
      have h2 : 2 ≤ y.length := by
        have : y.length ≠ 0 := fun he => hyn.1 (List.eq_nil_of_length_eq_zero he)
        have := hyn.2
        omega
      rw [← hyx]
      exact AudioMix.pairsLE_ne_nil h2
  rw [if_neg (by omega)]
  have hlen : max (AudioMix.pairsLE c0 :: List.map AudioMix.pairsLE cs1).length 1
      = (c0 :: cs1).length := by
    simp [Nat.max_eq_left]
  rw [hlen]

/-- Claim C5, counterexample: listener 0 has contributors with chunks
`[0, 0]` (even, satisfying the claim's hypothesis) and `[0, 0, 0]` (odd).
`_build_mix_for_target` skips the odd chunk (`np.frombuffer` raises) and
mixes only the even one, returning a one-sample mix, while the spec's
reference downmix — which decodes EVERY contributing chunk — is undefined on
the odd chunk; the two disagree for every limiter, refuted here at the
concrete `zeroLim`. -/
theorem audio_mix_spec_cex :
    ([0, 0] ∈ AudioMix.contributors [(1, [0, 0]), (2, [0, 0, 0])] 0
      ∧ ([0, 0] : List Nat).length % 2 = 0)
    ∧ AudioMix.buildMixForTarget [(1, [0, 0]), (2, [0, 0, 0])] 0 AudioMix.zeroLim = some [0]
    ∧ AudioMix.refDownmix [(1, [0, 0]), (2, [0, 0, 0])] 0 AudioMix.zeroLim = none := by
  decide

/-- Claim C5, witness: two decodable contributors for listener 0; the code's
mix equals the reference downmix. -/
theorem audio_mix_matches_reference_witness :
    AudioMix.buildMixForTarget [(1, [0, 0]), (2, [1, 0])] 0 AudioMix.zeroLim
      = AudioMix.refDownmix [(1, [0, 0]), (2, [1, 0])] 0 AudioMix.zeroLim :=
  audio_mix_matches_reference [(1, [0, 0]), (2, [1, 0])] 0 AudioMix.zeroLim
    (by decide) (by decide)
